import Mathlib

/-!
Shallow embedding of the `moarsql` SQL-composition program (src/main.rs).

The program turns an ordered chain of selects plus pairwise join keys into
a single nested SQL statement.  Strings are modelled by Lean `String`
(Rust `String`/`&str`), with character-list reasoning via `String.data`.
Rust's panicking operations (unsigned underflow, indexing an empty vector)
are modelled with `Option`/sentinel values, noted at each site.
-/

set_option maxRecDepth 4000

deriving instance DecidableEq for Except

namespace MoarSql

/-- Source constant `DEFAULT_INDENT` (main.rs line 9). -/
def DEFAULT_INDENT : String := "  "

/-- Model of `ProjectionCol { col, alias }` (main.rs lines 334-338). -/
structure ProjectionCol where
  col : String
  «alias» : Option String
deriving DecidableEq, Repr, Inhabited

/-- Model of `ProjectionCol::sql_string` (main.rs lines 364-370). -/
def ProjectionCol.sql_string (p : ProjectionCol) : String :=
  match p.«alias» with
  | some a => p.col ++ " as " ++ a
  | none => p.col

/-- Model of `ProjectionCol::aliased` (main.rs lines 372-378): rendered name,
alias if present else the column. -/
def ProjectionCol.aliased (p : ProjectionCol) : String :=
  match p.«alias» with
  | some a => a
  | none => p.col

/-- Model of `Select` (main.rs lines 291-298). -/
structure Select where
  table_name : String
  projections : List ProjectionCol
  group_by : Option String
  where_clause : Option String
deriving DecidableEq, Repr, Inhabited

/-- Model of `Select::aliased_projections` (main.rs lines 301-305). -/
def Select.aliased_projections (s : Select) : List String :=
  s.projections.map ProjectionCol.aliased

/-- Model of `Select::projections_sql` (main.rs lines 307-311). -/
def Select.projections_sql (s : Select) : List String :=
  s.projections.map ProjectionCol.sql_string

/-- Model of `JoinType` (main.rs lines 381-398). -/
inductive JoinType where
  | Right
  | Left
  | Inner
  | Outer
deriving DecidableEq, Repr

/-- Model of `impl Default for JoinType` (main.rs lines 400-404). -/
def JoinType.default : JoinType := JoinType.Inner

/-- Model of `impl Display for JoinType` (main.rs lines 406-415). -/
def JoinType.display : JoinType → String
  | JoinType.Right => "RIGHT"
  | JoinType.Left => "LEFT"
  | JoinType.Inner => "INNER"
  | JoinType.Outer => "OUTER"

/-- Model of `impl FromStr for JoinType` (main.rs lines 417-429): exact match on the
all-lowercase or all-uppercase spellings only. -/
def JoinType.from_str (s : String) : Except String JoinType :=
  if s = "right" ∨ s = "RIGHT" then Except.ok JoinType.Right
  else if s = "left" ∨ s = "LEFT" then Except.ok JoinType.Left
  else if s = "inner" ∨ s = "INNER" then Except.ok JoinType.Inner
  else if s = "outer" ∨ s = "OUTER" then Except.ok JoinType.Outer
  else Except.error "Could not parse string to JoinType"

/-- Model of `Statement` (main.rs lines 50-55). -/
structure Statement where
  create_table : Option String
  joins : List (String × JoinType)
  selects : List Select
deriving DecidableEq, Repr

/-- Rust checked `usize` subtraction: `none` models the arithmetic
underflow (a panic under overflow checks, not a returned value). -/
def checkedSub (a b : Nat) : Option Nat :=
  if b ≤ a then some (a - b) else none

/-- Model of `Statement::validate` (main.rs lines 58-93).  Only the length check is
live; the join-key membership check (lines 64-90) is commented out in the
source.  `none` models the `usize` underflow of `selects.len() - 1` on an
empty select list. -/
def Statement.validate (stmt : Statement) : Option (Except String Unit) :=
  match checkedSub stmt.selects.length 1 with
  | none => none
  | some n =>
    if stmt.joins.length ≠ n then
      some (Except.error "joins len must be one less than selects")
    else
      some (Except.ok ())

/-- Model of `itertools::repeat_n(indent, level).collect::<String>()`. -/
def repeatN (s : String) : Nat → String
  | 0 => ""
  | n + 1 => s ++ repeatN s n

/-- Model of `itertools::join(iter, sep)`: concatenation with `sep` interspersed. -/
def joinSep (sep : String) : List String → String
  | [] => ""
  | [x] => x
  | x :: y :: t => x ++ sep ++ joinSep sep (y :: t)

/-- The `HashSet`-backed stable de-duplication filter of
`Statement::sql_subquery` (main.rs lines 143-150): keep an element iff it
was not seen before, front to back. -/
def dedupAux (seen : List String) : List String → List String
  | [] => []
  | x :: xs => if x ∈ seen then dedupAux seen xs else x :: dedupAux (x :: seen) xs

/-- The aggregate column list of one recursion level (main.rs lines
143-156): every remaining select's rendered projection names, first
occurrence kept. -/
def aggregateCols (selects : List Select) : List String :=
  dedupAux [] (selects.flatMap Select.aliased_projections)

/-- Rust `str::trim_start` (ASCII whitespace suffices for this program). -/
def rustTrimStart (l : List Char) : List Char :=
  l.dropWhile Char.isWhitespace

/-- Rust `str::trim_end`. -/
def rustTrimEnd (l : List Char) : List Char :=
  (l.reverse.dropWhile Char.isWhitespace).reverse

/-- Rust `str::trim`. -/
def rustTrim (l : List Char) : List Char :=
  rustTrimEnd (rustTrimStart l)

/-- Rust `trim_start_matches("(\n")`: repeatedly strip that prefix. -/
def trimStartParenNl : List Char → List Char
  | '(' :: '\n' :: rest => trimStartParenNl rest
  | l => l

/-- Rust `trim_end_matches(')')`: strip all trailing right parens. -/
def trimEndRParens (l : List Char) : List Char :=
  (l.reverse.dropWhile (fun c => c = ')')).reverse

/-- The base-case post-processing of `Statement::sql_subquery` (main.rs
line 134): `.trim().trim_start_matches("(\n").trim_end_matches(")").trim_end()`. -/
def stripSubquery (s : String) : String :=
  ⟨rustTrimEnd (trimEndRParens (trimStartParenNl (rustTrim s.data)))⟩

/-- Model of `Statement::select_sql` (main.rs lines 218-252). -/
def select_sql (select : Select) (indent : String) (indent_level : Nat) : String :=
  let base := repeatN indent indent_level
  let p1 := repeatN indent (indent_level + 1)
  let p2 := repeatN indent (indent_level + 2)
  if select.projections.isEmpty then
    p1 ++ select.table_name ++ "\n"
  else
    base ++ "(" ++ "\n" ++ p1 ++ "SELECT" ++ "\n" ++ p2
      ++ joinSep ("," ++ "\n" ++ p2) select.projections_sql
      ++ "\n" ++ p1 ++ "FROM" ++ " " ++ select.table_name
      ++ (match select.group_by with
          | some g => "\n" ++ p1 ++ "GROUP" ++ " " ++ "BY" ++ " " ++ g
          | none => "")
      ++ (match select.where_clause with
          | some w => "\n" ++ p1 ++ "WHERE" ++ " " ++ w
          | none => "")
      ++ "\n" ++ base ++ ")"

/-- Model of `Statement::sql_subquery` (main.rs lines 120-216).  The source mutates
the select/join queues; here the queues are passed explicitly.  The two
`=> ""` arms model arms where the source panics (indexing / removing from
an empty vector), unreachable under the validated length invariant. -/
def sql_subquery (selects : List Select) (joins : List (String × JoinType))
    (indent : String) (indent_level : Nat) (reverse_nesting : Bool) : String :=
  match joins, selects with
  | [], [] => ""
  | [], sel :: _ => stripSubquery (select_sql sel indent indent_level)
  | (_, _) :: _, [] => ""
  | (join_col, join_type) :: js, sel :: rest =>
    let base := repeatN indent indent_level
    let p1 := repeatN indent (indent_level + 1)
    let header := base ++ "SELECT" ++ "\n" ++ p1
      ++ joinSep ("," ++ "\n" ++ p1) (aggregateCols (sel :: rest))
      ++ "\n" ++ base ++ "FROM" ++ "\n"
    let joinLine := "\n" ++ p1 ++ "ALL" ++ " " ++ join_type.display ++ " " ++ "JOIN" ++ "\n"
    let usingLine := "\n" ++ p1 ++ "USING" ++ " " ++ join_col
    let rem :=
      match rest with
      | [] => ""
      | [r] => select_sql r indent (indent_level + 1)
      | r1 :: r2 :: rs =>
        p1 ++ "(" ++ "\n"
          ++ sql_subquery (r1 :: r2 :: rs) js indent (indent_level + 2) reverse_nesting
          ++ "\n" ++ p1 ++ ")"
    if reverse_nesting then
      header ++ select_sql sel indent (indent_level + 1) ++ joinLine ++ rem ++ usingLine
    else
      header ++ rem ++ joinLine ++ select_sql sel indent (indent_level + 1) ++ usingLine

/-- Model of `Statement::clickhouse_sql` (main.rs lines 95-118). -/
def Statement.clickhouse_sql (stmt : Statement) (indent : String)
    (reverse_nesting : Bool) : String :=
  let indent_level := match stmt.create_table with
    | some _ => 1
    | none => 0
  let res := sql_subquery stmt.selects stmt.joins indent indent_level reverse_nesting
  match stmt.create_table with
  | some create_table =>
    "CREATE" ++ " " ++ "TABLE" ++ " " ++ create_table ++ " " ++ "AS" ++ "\n"
      ++ "(" ++ "\n" ++ res ++ "\n" ++ ")"
  | none => res

/-- Rust `str::split(" as ")` specialised model: leftmost,
non-overlapping splitting on the 4-character separator. -/
def splitAs : List Char → List (List Char)
  | ' ' :: 'a' :: 's' :: ' ' :: rest => [] :: splitAs rest
  | c :: rest =>
    match splitAs rest with
    | [] => [[c]]
    | h :: t => (c :: h) :: t
  | [] => [[]]

/-- Model of `impl FromStr for ProjectionCol` (main.rs lines 340-361). -/
def ProjectionCol.from_str (s : String) : Except String ProjectionCol :=
  match splitAs s.data with
  | [col, al] => Except.ok ⟨⟨rustTrim col⟩, some ⟨rustTrim al⟩⟩
  | [col] => Except.ok ⟨⟨col⟩, none⟩
  | _ => Except.error ("could not parse projection col: " ++ s)

/-- Rust `str::split("::::")` specialised model. -/
def splitJoin4 : List Char → List (List Char)
  | ':' :: ':' :: ':' :: ':' :: rest => [] :: splitJoin4 rest
  | c :: rest =>
    match splitJoin4 rest with
    | [] => [[c]]
    | h :: t => (c :: h) :: t
  | [] => [[]]

/-- Per-entry join parsing inside `TryFrom<StatementConfig> for Statement`
(main.rs lines 268-281): split on `"::::"`, first segment is the key, the
optional second segment is parsed as a `JoinType`, otherwise the global
default applies. -/
def parseJoinEntry (global_join_type : JoinType) (join_config : String) :
    Except String (String × JoinType) :=
  match splitJoin4 join_config.data with
  | [] => Except.error "No join col"
  | [col] => Except.ok (⟨col⟩, global_join_type)
  | col :: ty :: _ =>
    match JoinType.from_str ⟨ty⟩ with
    | Except.ok t => Except.ok (⟨col⟩, t)
    | Except.error e => Except.error e

/-- Model of the serde default on `StatementConfig.global_join_type` (main.rs
lines 37-39): an absent `join_type` field takes `JoinType::default()`. -/
def resolveGlobalJoinType (field : Option JoinType) : JoinType :=
  field.getD JoinType.default

/-! ### Token counting

`countL p l` is the number of start positions of `l` at which the token
`p` occurs.  "The output contains exactly n occurrences of token t" is
`countL t.data output.data = n`. -/

/-- Number of (possibly overlapping) occurrences of token `p` in `l`. -/
def countL (p : List Char) : List Char → Nat
  | [] => 0
  | c :: rest => (if p.isPrefixOf (c :: rest) then 1 else 0) + countL p rest

/-- Occurrences of the token `p` in the string `s`. -/
def countTok (p s : String) : Nat := countL p.data s.data

/-- Holds when `s` does not contain the token `p`. -/
def tokFreeB (p s : String) : Bool := countTok p s == 0

/-- All optional-string fields free of the token `p`. -/
def optTokFreeB (p : String) : Option String → Bool
  | none => true
  | some s => tokFreeB p s

/-- All rendered fragments of a `Select` are free of the token `p`. -/
def selectTokFreeB (p : String) (sel : Select) : Bool :=
  tokFreeB p sel.table_name &&
  sel.projections.all (fun pc => tokFreeB p pc.sql_string && tokFreeB p pc.aliased) &&
  optTokFreeB p sel.group_by && optTokFreeB p sel.where_clause

/-- All user-supplied fragments of a `Statement` are free of the token `p`. -/
def statementTokFreeB (p : String) (stmt : Statement) : Bool :=
  stmt.selects.all (selectTokFreeB p) &&
  stmt.joins.all (fun j => tokFreeB p j.1) &&
  optTokFreeB p stmt.create_table

/-- Spec-side formulation of the aggregate column list ("keep only the
first occurrence of each name, insertion order preserved"): keep the head,
then drop every later duplicate of it before recursing. -/
def keepFirst : List String → List String
  | [] => []
  | x :: xs => x :: keepFirst (xs.filter (fun y => decide (y ≠ x)))
termination_by l => l.length
decreasing_by
  simp only [List.length_cons]
  exact Nat.lt_succ_of_le (List.length_filter_le _ xs)


/-- Reassembly of `splitAs` parts with the `" as "` separator (used to
state the split-join identity). -/
def joinAs : List (List Char) → List Char
  | [] => []
  | [x] => x
  | x :: y :: t => x ++ ' ' :: 'a' :: 's' :: ' ' :: joinAs (y :: t)


/-- Example select `{table a, projections [id]}` from the spec's end-to-end
example. -/
def selExA : Select := ⟨"a", [⟨"id", none⟩], none, none⟩

/-- Example select `{table b, projections [id, v as val]}`. -/
def selExB : Select := ⟨"b", [⟨"id", none⟩, ⟨"v", some "val"⟩], none, none⟩

/-- The end-to-end example statement: selects `[a, b]`, joins `[(id, INNER)]`,
no output table. -/
def stmtEx : Statement := ⟨none, [("id", JoinType.Inner)], [selExA, selExB]⟩


theorem prefix_append_break {p : List Char} {c : Char} (hc : c ∉ p)
    (d b : List Char) : p.isPrefixOf (d ++ c :: b) = p.isPrefixOf d := by
  by_cases h : p <+: d
  · have h2 : p <+: d ++ c :: b := h.trans (List.prefix_append d (c :: b))
    rw [ List.isPrefixOf_iff_prefix.mpr h, List.isPrefixOf_iff_prefix.mpr h2]
  · have h2 : ¬ p <+: d ++ c :: b := by
      intro hp
      rcases Nat.lt_or_ge d.length p.length with hlt | hge
      · -- the occurrence would cover the breaker character `c`
        have hd : d <+: p := by
          apply List.prefix_of_prefix_length_le (List.prefix_append d (c :: b))
            hp (Nat.le_of_lt hlt)
        obtain ⟨p2, hp2⟩ := hd
        obtain ⟨t, ht⟩ := hp
        rw [← hp2] at ht hlt
        rw [List.append_assoc] at ht
        have ht2 : p2 ++ t = c :: b := List.append_cancel_left ht
        cases p2 with
        | nil => simp at hlt
        | cons x p3 =>
          have hx : x = c := by
            have := congrArg (fun l => l.headD c) ht2
            simpa using this
          apply hc
          rw [← hp2, hx]
          simp
      · exact h (List.prefix_of_prefix_length_le hp (List.prefix_append d (c :: b)) hge)
    have hb1 : p.isPrefixOf d = false := by
      rw [Bool.eq_false_iff]
      intro hh
      exact h ( List.isPrefixOf_iff_prefix.mp hh)
    have hb2 : p.isPrefixOf (d ++ c :: b) = false := by
      rw [Bool.eq_false_iff]
      intro hh
      exact h2 ( List.isPrefixOf_iff_prefix.mp hh)
    rw [hb1, hb2]

theorem countL_append_break {p : List Char} (hp : p ≠ []) {c : Char} (hc : c ∉ p)
    (a b : List Char) : countL p (a ++ c :: b) = countL p a + countL p b := by
  induction a with
  | nil =>
    have hnp : ¬ p <+: c :: b := by
      intro hpre
      cases p with
      | nil => exact hp rfl
      | cons q qs =>
        obtain ⟨t, ht⟩ := hpre
        have hqc : q = c := by
          have := congrArg (fun l => l.headD c) ht
          simpa using this
        exact hc (hqc ▸ List.mem_cons_self q qs)
    have hb : p.isPrefixOf (c :: b) = false := by
      rw [Bool.eq_false_iff]
      intro hh
      exact hnp ( List.isPrefixOf_iff_prefix.mp hh)
    show (if p.isPrefixOf (c :: b) then 1 else 0) + countL p b = countL p [] + countL p b
    rw [hb]
    simp [countL]
  | cons x a ih =>
    have hx : p.isPrefixOf ((x :: a) ++ c :: b) = p.isPrefixOf (x :: a) :=
      prefix_append_break hc (x :: a) b
    have e1 : countL p ((x :: a) ++ c :: b) =
        (if p.isPrefixOf ((x :: a) ++ c :: b) then 1 else 0) + countL p (a ++ c :: b) := rfl
    have e2 : countL p (x :: a) =
        (if p.isPrefixOf (x :: a) then 1 else 0) + countL p a := rfl
    rw [e1, hx, ih, e2]
    omega

theorem countL_breakers_prepend {p : List Char} (hp : p ≠ []) {a : List Char}
    (ha : ∀ c ∈ a, c ∉ p) (b : List Char) : countL p (a ++ b) = countL p b := by
  induction a with
  | nil => simp
  | cons x a ih =>
    have h1 : (x :: a) ++ b = ([] : List Char) ++ x :: (a ++ b) := rfl
    rw [h1, countL_append_break hp (ha x (List.mem_cons_self x a)) [] (a ++ b)]
    have h2 := ih (fun c hc => ha c (List.mem_cons_of_mem x hc))
    rw [h2]
    simp [countL]

theorem countL_eq_zero_of_breakers {p : List Char} (hp : p ≠ []) {a : List Char}
    (ha : ∀ c ∈ a, c ∉ p) : countL p a = 0 := by
  have h := countL_breakers_prepend hp ha []
  simpa using h

theorem countL_le_append_left (p a b : List Char) :
    countL p a ≤ countL p (a ++ b) := by
  induction a with
  | nil => simp [countL]
  | cons x a ih =>
    have e1 : countL p ((x :: a) ++ b) =
        (if p.isPrefixOf ((x :: a) ++ b) then 1 else 0) + countL p (a ++ b) := rfl
    have e2 : countL p (x :: a) =
        (if p.isPrefixOf (x :: a) then 1 else 0) + countL p a := rfl
    rw [e1, e2]
    have hite : (if p.isPrefixOf (x :: a) then 1 else 0) ≤
        (if p.isPrefixOf ((x :: a) ++ b) then (1 : Nat) else 0) := by
      by_cases h : p.isPrefixOf (x :: a) = true
      · have h2 : p.isPrefixOf ((x :: a) ++ b) = true := by
          rw [ List.isPrefixOf_iff_prefix] at h ⊢
          exact h.trans (List.prefix_append (x :: a) b)
        rw [h, h2]
      · rw [Bool.not_eq_true] at h
        rw [h]
        simp
    omega

theorem countL_le_append_right (p a b : List Char) :
    countL p b ≤ countL p (a ++ b) := by
  induction a with
  | nil => simp
  | cons x a ih =>
    have e1 : countL p ((x :: a) ++ b) =
        (if p.isPrefixOf ((x :: a) ++ b) then 1 else 0) + countL p (a ++ b) := rfl
    rw [e1]
    omega

theorem countL_infix_le (p m l : List Char) (h : m <:+: l) :
    countL p m ≤ countL p l := by
  obtain ⟨a, b, rfl⟩ := h
  calc countL p m ≤ countL p (m ++ b) := countL_le_append_left p m b
    _ ≤ countL p (a ++ (m ++ b)) := countL_le_append_right p a (m ++ b)
    _ = countL p (a ++ m ++ b) := by rw [List.append_assoc]

theorem rustTrimStart_suffix (l : List Char) : rustTrimStart l <:+ l :=
  List.dropWhile_suffix _

theorem rustTrimEnd_prefixOf (l : List Char) : rustTrimEnd l <+: l := by
  unfold rustTrimEnd
  have h : (l.reverse.dropWhile Char.isWhitespace) <:+ l.reverse :=
    List.dropWhile_suffix _
  have h2 : (List.dropWhile Char.isWhitespace l.reverse).reverse <+:
      l.reverse.reverse := List.reverse_prefix.mpr h
  simpa using h2

theorem trimStartParenNl_suffix (l : List Char) : trimStartParenNl l <:+ l := by
  induction l using trimStartParenNl.induct with
  | case1 rest ih =>
    rw [trimStartParenNl]
    exact ih.trans ⟨['(', '\n'], rfl⟩
  | case2 l h =>
    rw [trimStartParenNl.eq_def]
    split
    · rename_i rest
      exact absurd rfl (by intro hh; exact (h rest hh).elim)
    · exact List.suffix_rfl

theorem trimEndRParens_prefixOf (l : List Char) : trimEndRParens l <+: l := by
  unfold trimEndRParens
  have h : (l.reverse.dropWhile (fun c => c = ')')) <:+ l.reverse :=
    List.dropWhile_suffix _
  have h2 : (List.dropWhile (fun c => c = ')') l.reverse).reverse <+:
      l.reverse.reverse := List.reverse_prefix.mpr h
  simpa using h2

theorem data_empty : ("" : String).data = [] := rfl

theorem data_nl : ("\n" : String).data = ['\n'] := rfl

theorem data_space : (" " : String).data = [' '] := rfl

theorem data_lparen : ("(" : String).data = ['('] := rfl

theorem data_rparen : (")" : String).data = [')'] := rfl

theorem data_comma : ("," : String).data = [','] := rfl

theorem countL_cons_break {p : List Char} (hp : p ≠ []) {c : Char} (hc : c ∉ p)
    (b : List Char) : countL p (c :: b) = countL p b := by
  have h := countL_append_break hp hc [] b
  simpa [countL] using h

theorem mem_repeatN {s : String} {n : Nat} {c : Char}
    (hc : c ∈ (repeatN s n).data) : c ∈ s.data := by
  induction n with
  | zero => simp [repeatN, data_empty] at hc
  | succ n ih =>
    simp only [repeatN, String.data_append] at hc
    rcases List.mem_append.mp hc with h | h
    · exact h
    · exact ih h

theorem repeatN_default_breakers {p : List Char} (hsp : ' ' ∉ p) (n : Nat) :
    ∀ c ∈ (repeatN DEFAULT_INDENT n).data, c ∉ p := by
  intro c hc
  have h := mem_repeatN hc
  have hd : DEFAULT_INDENT.data = [' ', ' '] := rfl
  rw [hd] at h
  simp at h
  rw [h]
  exact hsp

theorem countL_nil (p : List Char) : countL p [] = 0 := by
  simp [countL]

theorem countL_joinSep_zero {p : List Char} (hp : p ≠ []) (hcm : ',' ∉ p)
    (hnl : '\n' ∉ p) {pre : String} (hpre : ∀ c ∈ pre.data, c ∉ p) :
    ∀ {parts : List String}, (∀ x ∈ parts, countL p x.data = 0) →
      countL p (joinSep ("," ++ "\n" ++ pre) parts).data = 0 := by
  intro parts
  induction parts with
  | nil =>
    intro _
    simp [joinSep, data_empty, countL]
  | cons x t ih =>
    intro hparts
    cases t with
    | nil =>
      simp only [joinSep]
      exact hparts x (List.mem_cons_self x [])
    | cons y t2 =>
      simp only [joinSep, String.data_append, List.append_assoc,
        List.cons_append, List.nil_append]
      rw [countL_append_break hp hcm, countL_cons_break hp hnl,
        countL_breakers_prepend hp hpre]
      rw [hparts x (List.mem_cons_self x (y :: t2))]
      have h2 := ih (fun z hz => hparts z (List.mem_cons_of_mem x hz))
      simpa [joinSep] using h2

theorem mem_dedupAux {x : String} :
    ∀ {l seen : List String}, x ∈ dedupAux seen l → x ∈ l := by
  intro l
  induction l with
  | nil => intro seen h; simp [dedupAux] at h
  | cons y t ih =>
    intro seen h
    simp only [dedupAux] at h
    by_cases hy : y ∈ seen
    · rw [if_pos hy] at h
      exact List.mem_cons_of_mem y (ih h)
    · rw [if_neg hy] at h
      rcases List.mem_cons.mp h with h1 | h2
      · rw [h1]
        exact List.mem_cons_self y t
      · exact List.mem_cons_of_mem y (ih h2)

theorem countL_chain_break {p : List Char} (hp : p ≠ []) {c : Char} (hc : c ∉ p)
    {w chain : List Char} (hw : countL p w = 0) (X : List Char)
    (e : chain = w ++ c :: X) : countL p chain = countL p X := by
  rw [e, countL_append_break hp hc, hw]
  omega

theorem countL_select_sql_zero {p : List Char} (hp : p ≠ []) (hnl : '\n' ∉ p)
    (hsp : ' ' ∉ p) (hlp : '(' ∉ p) (hrp : ')' ∉ p) (hcm : ',' ∉ p)
    (hSELECT : countL p ("SELECT" : String).data = 0)
    (hFROM : countL p ("FROM" : String).data = 0)
    (hGROUP : countL p ("GROUP" : String).data = 0)
    (hBY : countL p ("BY" : String).data = 0)
    (hWHERE : countL p ("WHERE" : String).data = 0)
    (sel : Select) (lvl : Nat)
    (htbl : countL p sel.table_name.data = 0)
    (hprojs : ∀ pc ∈ sel.projections, countL p pc.sql_string.data = 0)
    (hgb : ∀ g ∈ sel.group_by, countL p g.data = 0)
    (hwc : ∀ w ∈ sel.where_clause, countL p w.data = 0) :
    countL p (select_sql sel DEFAULT_INDENT lvl).data = 0 := by
  obtain ⟨tbl, projs, gb, wc⟩ := sel
  dsimp only at htbl hprojs hgb hwc
  have hbase := repeatN_default_breakers hsp lvl
  have hp1 := repeatN_default_breakers hsp (lvl + 1)
  have hp2 := repeatN_default_breakers hsp (lvl + 2)
  have hS : countL p ['S', 'E', 'L', 'E', 'C', 'T'] = 0 := by simpa using hSELECT
  have hF : countL p ['F', 'R', 'O', 'M'] = 0 := by simpa using hFROM
  have hG : countL p ['G', 'R', 'O', 'U', 'P'] = 0 := by simpa using hGROUP
  have hB : countL p ['B', 'Y'] = 0 := by simpa using hBY
  have hW : countL p ['W', 'H', 'E', 'R', 'E'] = 0 := by simpa using hWHERE
  have hcols : countL p (joinSep (",\n" ++ repeatN DEFAULT_INDENT (lvl + 2))
      (projs.map ProjectionCol.sql_string)).data = 0 := by
    apply countL_joinSep_zero hp hcm hnl hp2
    intro x hx
    obtain ⟨pc, hpc, rfl⟩ := List.mem_map.mp hx
    exact hprojs pc hpc
  have hbase0 : countL p (repeatN DEFAULT_INDENT lvl).data = 0 :=
    countL_eq_zero_of_breakers hp hbase
  have hp10 : countL p (repeatN DEFAULT_INDENT (lvl + 1)).data = 0 :=
    countL_eq_zero_of_breakers hp hp1
  have hp20 : countL p (repeatN DEFAULT_INDENT (lvl + 2)).data = 0 :=
    countL_eq_zero_of_breakers hp hp2
  have hSb : ∀ X, countL p ('S' :: 'E' :: 'L' :: 'E' :: 'C' :: 'T' :: '\n' :: X) =
      countL p X := fun X => countL_chain_break hp hnl hS X rfl
  have hFb : ∀ X, countL p ('F' :: 'R' :: 'O' :: 'M' :: ' ' :: X) =
      countL p X := fun X => countL_chain_break hp hsp hF X rfl
  have hGb : ∀ X, countL p ('G' :: 'R' :: 'O' :: 'U' :: 'P' :: ' ' :: X) =
      countL p X := fun X => countL_chain_break hp hsp hG X rfl
  have hBb : ∀ X, countL p ('B' :: 'Y' :: ' ' :: X) =
      countL p X := fun X => countL_chain_break hp hsp hB X rfl
  have hWb : ∀ X, countL p ('W' :: 'H' :: 'E' :: 'R' :: 'E' :: ' ' :: X) =
      countL p X := fun X => countL_chain_break hp hsp hW X rfl
  cases projs with
  | nil =>
    simp only [select_sql, List.isEmpty_nil, if_true, String.data_append,
      List.append_assoc, List.cons_append, List.nil_append]
    rw [countL_breakers_prepend hp hp1, countL_append_break hp hnl]
    simp [htbl, countL_nil]
  | cons pc0 pcs =>
    simp only [List.map_cons] at hcols
    cases gb with
    | none =>
      cases wc with
      | none =>
        simp only [select_sql, Select.projections_sql, List.isEmpty_cons,
          Bool.false_eq_true, if_false, String.data_append, List.append_assoc,
          List.cons_append, List.nil_append, List.append_nil, data_empty]
        simp only [hSb, hFb, hGb, hBb, hWb, countL_cons_break hp hnl,
          countL_cons_break hp hsp, countL_cons_break hp hlp,
          countL_cons_break hp hrp, countL_cons_break hp hcm,
          countL_append_break hp hnl, countL_append_break hp hsp,
          countL_append_break hp hcm, countL_append_break hp hlp,
          countL_append_break hp hrp, countL_breakers_prepend hp hbase,
          countL_breakers_prepend hp hp1, countL_breakers_prepend hp hp2]
        simp [hbase0, hp10, hp20, htbl, hcols, countL_nil]
      | some w =>
        have hw : countL p w.data = 0 := hwc w rfl
        simp only [select_sql, Select.projections_sql, List.isEmpty_cons,
          Bool.false_eq_true, if_false, String.data_append, List.append_assoc,
          List.cons_append, List.nil_append, List.append_nil, data_empty]
        simp only [hSb, hFb, hGb, hBb, hWb, countL_cons_break hp hnl,
          countL_cons_break hp hsp, countL_cons_break hp hlp,
          countL_cons_break hp hrp, countL_cons_break hp hcm,
          countL_append_break hp hnl, countL_append_break hp hsp,
          countL_append_break hp hcm, countL_append_break hp hlp,
          countL_append_break hp hrp, countL_breakers_prepend hp hbase,
          countL_breakers_prepend hp hp1, countL_breakers_prepend hp hp2]
        simp [hbase0, hp10, hp20, htbl, hcols, hw, countL_nil]
    | some g =>
      have hg : countL p g.data = 0 := hgb g rfl
      cases wc with
      | none =>
        simp only [select_sql, Select.projections_sql, List.isEmpty_cons,
          Bool.false_eq_true, if_false, String.data_append, List.append_assoc,
          List.cons_append, List.nil_append, List.append_nil, data_empty]
        simp only [hSb, hFb, hGb, hBb, hWb, countL_cons_break hp hnl,
          countL_cons_break hp hsp, countL_cons_break hp hlp,
          countL_cons_break hp hrp, countL_cons_break hp hcm,
          countL_append_break hp hnl, countL_append_break hp hsp,
          countL_append_break hp hcm, countL_append_break hp hlp,
          countL_append_break hp hrp, countL_breakers_prepend hp hbase,
          countL_breakers_prepend hp hp1, countL_breakers_prepend hp hp2]
        simp [hbase0, hp10, hp20, htbl, hcols, hg, countL_nil]
      | some w =>
        have hw : countL p w.data = 0 := hwc w rfl
        simp only [select_sql, Select.projections_sql, List.isEmpty_cons,
          Bool.false_eq_true, if_false, String.data_append, List.append_assoc,
          List.cons_append, List.nil_append, List.append_nil, data_empty]
        simp only [hSb, hFb, hGb, hBb, hWb, countL_cons_break hp hnl,
          countL_cons_break hp hsp, countL_cons_break hp hlp,
          countL_cons_break hp hrp, countL_cons_break hp hcm,
          countL_append_break hp hnl, countL_append_break hp hsp,
          countL_append_break hp hcm, countL_append_break hp hlp,
          countL_append_break hp hrp, countL_breakers_prepend hp hbase,
          countL_breakers_prepend hp hp1, countL_breakers_prepend hp hp2]
        simp [hbase0, hp10, hp20, htbl, hcols, hg, hw, countL_nil]

theorem stripSubquery_within (s : String) : (stripSubquery s).data <:+: s.data := by
  unfold stripSubquery rustTrim
  have h1 : rustTrimStart s.data <:+ s.data := rustTrimStart_suffix _
  have h2 : rustTrimEnd (rustTrimStart s.data) <+: rustTrimStart s.data :=
    rustTrimEnd_prefixOf _
  have h3 : trimStartParenNl (rustTrimEnd (rustTrimStart s.data)) <:+
      rustTrimEnd (rustTrimStart s.data) := trimStartParenNl_suffix _
  have h4 : trimEndRParens (trimStartParenNl (rustTrimEnd (rustTrimStart s.data))) <+:
      trimStartParenNl (rustTrimEnd (rustTrimStart s.data)) := trimEndRParens_prefixOf _
  have h5 : rustTrimEnd (trimEndRParens (trimStartParenNl (rustTrimEnd
      (rustTrimStart s.data)))) <+:
      trimEndRParens (trimStartParenNl (rustTrimEnd (rustTrimStart s.data))) :=
    rustTrimEnd_prefixOf _
  have i5 := List.IsPrefix.isInfix (h5.trans h4)
  have i3 := List.IsSuffix.isInfix h3
  have i2 := List.IsPrefix.isInfix h2
  have i1 := List.IsSuffix.isInfix h1
  exact ((i5.trans i3).trans i2).trans i1

theorem countL_sql_subquery
    {p : List Char} (hp : p ≠ []) (hnl : '\n' ∉ p) (hsp : ' ' ∉ p)
    (hlp : '(' ∉ p) (hrp : ')' ∉ p) (hcm : ',' ∉ p)
    (hSELECT : countL p ("SELECT" : String).data = 0)
    (hFROM : countL p ("FROM" : String).data = 0)
    (hALL : countL p ("ALL" : String).data = 0)
    (hGROUP : countL p ("GROUP" : String).data = 0)
    (hBY : countL p ("BY" : String).data = 0)
    (hWHERE : countL p ("WHERE" : String).data = 0)
    (hRIGHT : countL p ("RIGHT" : String).data = 0)
    (hLEFT : countL p ("LEFT" : String).data = 0)
    (hINNER : countL p ("INNER" : String).data = 0)
    (hOUTER : countL p ("OUTER" : String).data = 0) :
    ∀ (selects : List Select) (joins : List (String × JoinType)) (lvl : Nat)
      (rev : Bool),
      joins.length + 1 = selects.length →
      (∀ sel ∈ selects, countL p sel.table_name.data = 0 ∧
        (∀ pc ∈ sel.projections,
          countL p pc.sql_string.data = 0 ∧ countL p pc.aliased.data = 0) ∧
        (∀ g ∈ sel.group_by, countL p g.data = 0) ∧
        (∀ w ∈ sel.where_clause, countL p w.data = 0)) →
      (∀ j ∈ joins, countL p j.1.data = 0) →
      countL p (sql_subquery selects joins DEFAULT_INDENT lvl rev).data =
        (countL p ("JOIN" : String).data + countL p ("USING" : String).data) *
          joins.length := by
  intro selects
  induction selects with
  | nil =>
    intro joins lvl rev hlen hsel hjoin
    simp at hlen
  | cons sel rest ih =>
    intro joins lvl rev hlen hsel hjoin
    have hselhead := hsel sel (List.mem_cons_self sel rest)
    have hselz : countL p (select_sql sel DEFAULT_INDENT (lvl + 1)).data = 0 :=
      countL_select_sql_zero hp hnl hsp hlp hrp hcm hSELECT hFROM hGROUP hBY
        hWHERE sel (lvl + 1) hselhead.1 (fun pc hpc => (hselhead.2.1 pc hpc).1)
        hselhead.2.2.1 hselhead.2.2.2
    cases joins with
    | nil =>
      have h0 : countL p (select_sql sel DEFAULT_INDENT lvl).data = 0 :=
        countL_select_sql_zero hp hnl hsp hlp hrp hcm hSELECT hFROM hGROUP hBY
          hWHERE sel lvl hselhead.1 (fun pc hpc => (hselhead.2.1 pc hpc).1)
          hselhead.2.2.1 hselhead.2.2.2
      have hle := countL_infix_le p _ _
        (stripSubquery_within (select_sql sel DEFAULT_INDENT lvl))
      simp only [sql_subquery, List.length_nil, Nat.mul_zero]
      omega
    | cons j js =>
      obtain ⟨jc, jt⟩ := j
      cases rest with
      | nil => simp at hlen
      | cons r1 rs =>
        have hbase := repeatN_default_breakers hsp lvl
        have hp1 := repeatN_default_breakers hsp (lvl + 1)
        have hbase0 : countL p (repeatN DEFAULT_INDENT lvl).data = 0 :=
          countL_eq_zero_of_breakers hp hbase
        have hp10 : countL p (repeatN DEFAULT_INDENT (lvl + 1)).data = 0 :=
          countL_eq_zero_of_breakers hp hp1
        have hS : countL p ['S', 'E', 'L', 'E', 'C', 'T'] = 0 := by simpa using hSELECT
        have hF : countL p ['F', 'R', 'O', 'M'] = 0 := by simpa using hFROM
        have hA : countL p ['A', 'L', 'L'] = 0 := by simpa using hALL
        have hSb : ∀ X, countL p ('S' :: 'E' :: 'L' :: 'E' :: 'C' :: 'T' :: '\n' :: X) =
            countL p X := fun X => countL_chain_break hp hnl hS X rfl
        have hFb : ∀ X, countL p ('F' :: 'R' :: 'O' :: 'M' :: '\n' :: X) =
            countL p X := fun X => countL_chain_break hp hnl hF X rfl
        have hAb : ∀ X, countL p ('A' :: 'L' :: 'L' :: ' ' :: X) =
            countL p X := fun X => countL_chain_break hp hsp hA X rfl
        have hJc : ∀ X, countL p ('J' :: 'O' :: 'I' :: 'N' :: '\n' :: X) =
            countL p ['J', 'O', 'I', 'N'] + countL p X := by
          intro X
          rw [show ('J' :: 'O' :: 'I' :: 'N' :: '\n' :: X) =
            ['J', 'O', 'I', 'N'] ++ '\n' :: X from rfl, countL_append_break hp hnl]
        have hUc : ∀ X, countL p ('U' :: 'S' :: 'I' :: 'N' :: 'G' :: ' ' :: X) =
            countL p ['U', 'S', 'I', 'N', 'G'] + countL p X := by
          intro X
          rw [show ('U' :: 'S' :: 'I' :: 'N' :: 'G' :: ' ' :: X) =
            ['U', 'S', 'I', 'N', 'G'] ++ ' ' :: X from rfl, countL_append_break hp hsp]
        have hdisp : countL p (JoinType.display jt).data = 0 := by
          cases jt
          · simpa [JoinType.display] using hRIGHT
          · simpa [JoinType.display] using hLEFT
          · simpa [JoinType.display] using hINNER
          · simpa [JoinType.display] using hOUTER
        have hagg : ∀ x ∈ aggregateCols (sel :: r1 :: rs), countL p x.data = 0 := by
          intro x hx
          rw [aggregateCols] at hx
          obtain ⟨sel2, hsel2, hx3⟩ := List.mem_flatMap.mp (mem_dedupAux hx)
          rw [Select.aliased_projections] at hx3
          obtain ⟨pc, hpc, rfl⟩ := List.mem_map.mp hx3
          exact ((hsel sel2 hsel2).2.1 pc hpc).2
        have hcolsH : countL p (joinSep (",\n" ++ repeatN DEFAULT_INDENT (lvl + 1))
            (aggregateCols (sel :: r1 :: rs))).data = 0 :=
          countL_joinSep_zero hp hcm hnl hp1 hagg
        have hjc : countL p jc.data = 0 := hjoin (jc, jt) (List.mem_cons_self _ js)
        have hjoin2 : ∀ j2 ∈ js, countL p j2.1.data = 0 :=
          fun j2 hj2 => hjoin j2 (List.mem_cons_of_mem _ hj2)
        cases rs with
        | nil =>
          have hjs : js = [] := by
            simp only [List.length_cons, List.length_nil] at hlen
            exact List.eq_nil_of_length_eq_zero (by omega)
          subst hjs
          have hr1 := hsel r1 (List.mem_cons_of_mem sel (List.mem_cons_self r1 []))
          have hr1z : countL p (select_sql r1 DEFAULT_INDENT (lvl + 1)).data = 0 :=
            countL_select_sql_zero hp hnl hsp hlp hrp hcm hSELECT hFROM hGROUP hBY
              hWHERE r1 (lvl + 1) hr1.1 (fun pc hpc => (hr1.2.1 pc hpc).1)
              hr1.2.2.1 hr1.2.2.2
          cases rev <;>
          · simp only [sql_subquery, Bool.false_eq_true, if_false, if_true,
              String.data_append, List.append_assoc,
              List.cons_append, List.nil_append, List.append_nil, data_empty]
            simp only [hSb, hFb, hAb, hJc, hUc, countL_cons_break hp hnl,
              countL_cons_break hp hsp, countL_cons_break hp hlp,
              countL_cons_break hp hrp, countL_cons_break hp hcm,
              countL_append_break hp hnl, countL_append_break hp hsp,
              countL_append_break hp hcm, countL_append_break hp hlp,
              countL_append_break hp hrp, countL_breakers_prepend hp hbase,
              countL_breakers_prepend hp hp1]
            simp [hbase0, hp10, hcolsH, hselz, hr1z, hdisp, hjc, countL_nil]
        | cons r2 rs2 =>
          have hrec := ih js (lvl + 2) rev (by simp at hlen ⊢; omega)
            (fun s hs => hsel s (List.mem_cons_of_mem sel hs)) hjoin2
          cases rev <;>
          · simp only [sql_subquery, Bool.false_eq_true, if_false, if_true,
              String.data_append, List.append_assoc,
              List.cons_append, List.nil_append, List.append_nil, data_empty]
            simp only [hSb, hFb, hAb, hJc, hUc, countL_cons_break hp hnl,
              countL_cons_break hp hsp, countL_cons_break hp hlp,
              countL_cons_break hp hrp, countL_cons_break hp hcm,
              countL_append_break hp hnl, countL_append_break hp hsp,
              countL_append_break hp hcm, countL_append_break hp hlp,
              countL_append_break hp hrp, countL_breakers_prepend hp hbase,
              countL_breakers_prepend hp hp1]
            rw [hrec]
            simp [hbase0, hp10, hcolsH, hselz, hdisp, hjc, countL_nil]
            try ring_nf
            try omega

theorem tokFreeB_elim {ps s : String} (h : tokFreeB ps s = true) :
    countL ps.data s.data = 0 := by
  simpa [tokFreeB, countTok] using h

theorem optTokFreeB_elim {ps : String} {o : Option String}
    (h : optTokFreeB ps o = true) : ∀ s ∈ o, countL ps.data s.data = 0 := by
  cases o with
  | none =>
    intro s hs
    simp at hs
  | some s0 =>
    intro s hs
    rw [Option.mem_def] at hs
    injection hs with hs2
    subst hs2
    exact tokFreeB_elim h

theorem statementTokFreeB_elim {ps : String} {stmt : Statement}
    (h : statementTokFreeB ps stmt = true) :
    (∀ sel ∈ stmt.selects, countL ps.data sel.table_name.data = 0 ∧
      (∀ pc ∈ sel.projections, countL ps.data pc.sql_string.data = 0 ∧
        countL ps.data pc.aliased.data = 0) ∧
      (∀ g ∈ sel.group_by, countL ps.data g.data = 0) ∧
      (∀ w ∈ sel.where_clause, countL ps.data w.data = 0)) ∧
    (∀ j ∈ stmt.joins, countL ps.data j.1.data = 0) ∧
    (∀ c ∈ stmt.create_table, countL ps.data c.data = 0) := by
  simp only [statementTokFreeB, Bool.and_eq_true, List.all_eq_true] at h
  obtain ⟨⟨hsels, hjoins⟩, hct⟩ := h
  refine ⟨?_, ?_, optTokFreeB_elim hct⟩
  · intro sel hs
    have h2 := hsels sel hs
    simp only [selectTokFreeB, Bool.and_eq_true, List.all_eq_true] at h2
    obtain ⟨⟨⟨ht, hpcs⟩, hgb⟩, hwc⟩ := h2
    refine ⟨tokFreeB_elim ht, ?_, optTokFreeB_elim hgb, optTokFreeB_elim hwc⟩
    intro pc hpc
    have h3 := hpcs pc hpc
    exact ⟨tokFreeB_elim h3.1, tokFreeB_elim h3.2⟩
  · intro j hj
    exact tokFreeB_elim (hjoins j hj)

theorem countL_clickhouse_sql
    {p : List Char} (hp : p ≠ []) (hnl : '\n' ∉ p) (hsp : ' ' ∉ p)
    (hlp : '(' ∉ p) (hrp : ')' ∉ p) (hcm : ',' ∉ p)
    (hSELECT : countL p ("SELECT" : String).data = 0)
    (hFROM : countL p ("FROM" : String).data = 0)
    (hALL : countL p ("ALL" : String).data = 0)
    (hGROUP : countL p ("GROUP" : String).data = 0)
    (hBY : countL p ("BY" : String).data = 0)
    (hWHERE : countL p ("WHERE" : String).data = 0)
    (hRIGHT : countL p ("RIGHT" : String).data = 0)
    (hLEFT : countL p ("LEFT" : String).data = 0)
    (hINNER : countL p ("INNER" : String).data = 0)
    (hOUTER : countL p ("OUTER" : String).data = 0)
    (hCREATE : countL p ("CREATE" : String).data = 0)
    (hTABLE : countL p ("TABLE" : String).data = 0)
    (hAS : countL p ("AS" : String).data = 0)
    (stmt : Statement) (rev : Bool)
    (hlen : stmt.joins.length + 1 = stmt.selects.length)
    (hsel : ∀ sel ∈ stmt.selects, countL p sel.table_name.data = 0 ∧
      (∀ pc ∈ sel.projections, countL p pc.sql_string.data = 0 ∧
        countL p pc.aliased.data = 0) ∧
      (∀ g ∈ sel.group_by, countL p g.data = 0) ∧
      (∀ w ∈ sel.where_clause, countL p w.data = 0))
    (hjoin : ∀ j ∈ stmt.joins, countL p j.1.data = 0)
    (hct : ∀ c ∈ stmt.create_table, countL p c.data = 0) :
    countL p (stmt.clickhouse_sql DEFAULT_INDENT rev).data =
      (countL p ("JOIN" : String).data + countL p ("USING" : String).data) *
        stmt.joins.length := by
  obtain ⟨ct, joins, selects⟩ := stmt
  dsimp only at hlen hsel hjoin hct
  cases ct with
  | none =>
    simp only [Statement.clickhouse_sql]
    exact countL_sql_subquery hp hnl hsp hlp hrp hcm hSELECT hFROM hALL hGROUP
      hBY hWHERE hRIGHT hLEFT hINNER hOUTER selects joins 0 rev hlen hsel hjoin
  | some c =>
    have hc : countL p c.data = 0 := hct c rfl
    have hres := countL_sql_subquery hp hnl hsp hlp hrp hcm hSELECT hFROM hALL
      hGROUP hBY hWHERE hRIGHT hLEFT hINNER hOUTER selects joins 1 rev hlen
      hsel hjoin
    have hCR : countL p ['C', 'R', 'E', 'A', 'T', 'E'] = 0 := by simpa using hCREATE
    have hTA : countL p ['T', 'A', 'B', 'L', 'E'] = 0 := by simpa using hTABLE
    have hA2 : countL p ['A', 'S'] = 0 := by simpa using hAS
    have hCRb : ∀ X, countL p ('C' :: 'R' :: 'E' :: 'A' :: 'T' :: 'E' :: ' ' :: X) =
        countL p X := fun X => countL_chain_break hp hsp hCR X rfl
    have hTAb : ∀ X, countL p ('T' :: 'A' :: 'B' :: 'L' :: 'E' :: ' ' :: X) =
        countL p X := fun X => countL_chain_break hp hsp hTA X rfl
    have hASb : ∀ X, countL p ('A' :: 'S' :: '\n' :: X) =
        countL p X := fun X => countL_chain_break hp hnl hA2 X rfl
    simp only [Statement.clickhouse_sql, String.data_append, List.append_assoc,
      List.cons_append, List.nil_append, List.append_nil, data_empty]
    simp only [hCRb, hTAb, hASb, countL_cons_break hp hnl,
      countL_cons_break hp hsp, countL_cons_break hp hlp,
      countL_cons_break hp hrp, countL_append_break hp hnl,
      countL_append_break hp hsp]
    simp [hc, hres, countL_nil]

theorem countL_split_assoc {p : List Char} (hp : p ≠ []) (hnl : '\n' ∉ p) :
    ∀ a b X, countL p (a ++ (b ++ '\n' :: X)) = countL p (a ++ b) + countL p X := by
  intro a b X
  rw [show a ++ (b ++ '\n' :: X) = (a ++ b) ++ '\n' :: X by simp,
    countL_append_break hp hnl]

theorem countL_split_select_word {p : List Char} (hp : p ≠ []) (hnl : '\n' ∉ p) :
    ∀ a X, countL p (a ++ 'S' :: 'E' :: 'L' :: 'E' :: 'C' :: 'T' :: '\n' :: X) =
      countL p (a ++ ['S', 'E', 'L', 'E', 'C', 'T']) + countL p X := by
  intro a X
  rw [show a ++ 'S' :: 'E' :: 'L' :: 'E' :: 'C' :: 'T' :: '\n' :: X =
    (a ++ ['S', 'E', 'L', 'E', 'C', 'T']) ++ '\n' :: X by simp,
    countL_append_break hp hnl]

theorem countL_split_from_word {p : List Char} (hp : p ≠ []) (hnl : '\n' ∉ p) :
    ∀ a X, countL p (a ++ 'F' :: 'R' :: 'O' :: 'M' :: '\n' :: X) =
      countL p (a ++ ['F', 'R', 'O', 'M']) + countL p X := by
  intro a X
  rw [show a ++ 'F' :: 'R' :: 'O' :: 'M' :: '\n' :: X =
    (a ++ ['F', 'R', 'O', 'M']) ++ '\n' :: X by simp,
    countL_append_break hp hnl]

theorem countL_split_lparen {p : List Char} (hp : p ≠ []) (hnl : '\n' ∉ p) :
    ∀ a X, countL p (a ++ '(' :: '\n' :: X) =
      countL p (a ++ ['(']) + countL p X := by
  intro a X
  rw [show a ++ '(' :: '\n' :: X = (a ++ ['(']) ++ '\n' :: X by simp,
    countL_append_break hp hnl]

theorem countL_split_rparen {p : List Char} (hp : p ≠ []) (hnl : '\n' ∉ p) :
    ∀ a X, countL p (a ++ ')' :: '\n' :: X) =
      countL p (a ++ [')']) + countL p X := by
  intro a X
  rw [show a ++ ')' :: '\n' :: X = (a ++ [')']) ++ '\n' :: X by simp,
    countL_append_break hp hnl]

theorem countL_split_alljoin {p : List Char} (hp : p ≠ []) (hnl : '\n' ∉ p) :
    ∀ a b X, countL p (a ++ 'A' :: 'L' :: 'L' :: ' ' ::
        (b ++ ' ' :: 'J' :: 'O' :: 'I' :: 'N' :: '\n' :: X)) =
      countL p (a ++ 'A' :: 'L' :: 'L' :: ' ' ::
        (b ++ [' ', 'J', 'O', 'I', 'N'])) + countL p X := by
  intro a b X
  rw [show a ++ 'A' :: 'L' :: 'L' :: ' ' ::
      (b ++ ' ' :: 'J' :: 'O' :: 'I' :: 'N' :: '\n' :: X) =
    (a ++ 'A' :: 'L' :: 'L' :: ' ' :: (b ++ [' ', 'J', 'O', 'I', 'N'])) ++
      '\n' :: X by simp,
    countL_append_break hp hnl]

theorem countL_sql_subquery_mode {p : List Char} (hp : p ≠ []) (hnl : '\n' ∉ p) :
    ∀ (selects : List Select) (joins : List (String × JoinType))
      (indent : String) (lvl : Nat),
      countL p (sql_subquery selects joins indent lvl false).data =
      countL p (sql_subquery selects joins indent lvl true).data := by
  intro selects
  induction selects with
  | nil =>
    intro joins indent lvl
    cases joins with
    | nil => rfl
    | cons j js => rfl
  | cons sel rest ih =>
    intro joins indent lvl
    cases joins with
    | nil => rfl
    | cons j js =>
      obtain ⟨jc, jt⟩ := j
      cases rest with
      | nil =>
        simp only [sql_subquery, Bool.false_eq_true, if_false, if_true,
          String.data_append, List.append_assoc, List.cons_append,
          List.nil_append, List.append_nil, data_empty]
        simp only [countL_split_select_word hp hnl, countL_split_assoc hp hnl,
          countL_split_from_word hp hnl, countL_split_lparen hp hnl,
          countL_split_rparen hp hnl, countL_split_alljoin hp hnl,
          countL_append_break hp hnl, countL_cons_break hp hnl]
        omega
      | cons r1 rs =>
        cases rs with
        | nil =>
          simp only [sql_subquery, Bool.false_eq_true, if_false, if_true,
            String.data_append, List.append_assoc, List.cons_append,
            List.nil_append, List.append_nil, data_empty]
          simp only [countL_split_select_word hp hnl, countL_split_assoc hp hnl,
            countL_split_from_word hp hnl, countL_split_lparen hp hnl,
            countL_split_rparen hp hnl, countL_split_alljoin hp hnl,
            countL_append_break hp hnl, countL_cons_break hp hnl]
          omega
        | cons r2 rs2 =>
          have hrec := ih js indent (lvl + 2)
          simp only [sql_subquery, Bool.false_eq_true, if_false, if_true,
            String.data_append, List.append_assoc, List.cons_append,
            List.nil_append, List.append_nil, data_empty]
          simp only [countL_split_select_word hp hnl, countL_split_assoc hp hnl,
            countL_split_from_word hp hnl, countL_split_lparen hp hnl,
            countL_split_rparen hp hnl, countL_split_alljoin hp hnl,
            countL_append_break hp hnl, countL_cons_break hp hnl]
          omega

theorem countL_split_create {p : List Char} (hp : p ≠ []) (hnl : '\n' ∉ p) :
    ∀ b X, countL p ('C' :: 'R' :: 'E' :: 'A' :: 'T' :: 'E' :: ' ' ::
        'T' :: 'A' :: 'B' :: 'L' :: 'E' :: ' ' ::
        (b ++ ' ' :: 'A' :: 'S' :: '\n' :: X)) =
      countL p ('C' :: 'R' :: 'E' :: 'A' :: 'T' :: 'E' :: ' ' ::
        'T' :: 'A' :: 'B' :: 'L' :: 'E' :: ' ' ::
        (b ++ [' ', 'A', 'S'])) + countL p X := by
  intro b X
  rw [show ('C' :: 'R' :: 'E' :: 'A' :: 'T' :: 'E' :: ' ' ::
      'T' :: 'A' :: 'B' :: 'L' :: 'E' :: ' ' ::
      (b ++ ' ' :: 'A' :: 'S' :: '\n' :: X)) =
    ('C' :: 'R' :: 'E' :: 'A' :: 'T' :: 'E' :: ' ' ::
      'T' :: 'A' :: 'B' :: 'L' :: 'E' :: ' ' ::
      (b ++ [' ', 'A', 'S'])) ++ '\n' :: X by simp,
    countL_append_break hp hnl]

theorem countL_split_lparen0 {p : List Char} (hp : p ≠ []) (hnl : '\n' ∉ p) :
    ∀ X, countL p ('(' :: '\n' :: X) = countL p ['('] + countL p X := by
  intro X
  rw [show ('(' :: '\n' :: X) = ['('] ++ '\n' :: X from rfl,
    countL_append_break hp hnl]

theorem countL_clickhouse_sql_mode {p : List Char} (hp : p ≠ []) (hnl : '\n' ∉ p) :
    ∀ (stmt : Statement) (indent : String),
      countL p (stmt.clickhouse_sql indent false).data =
      countL p (stmt.clickhouse_sql indent true).data := by
  intro stmt indent
  obtain ⟨ct, joins, selects⟩ := stmt
  cases ct with
  | none =>
    simp only [Statement.clickhouse_sql]
    exact countL_sql_subquery_mode hp hnl selects joins indent 0
  | some c =>
    have hm := countL_sql_subquery_mode hp hnl selects joins indent 1
    simp only [Statement.clickhouse_sql, String.data_append, List.append_assoc,
      List.cons_append, List.nil_append, List.append_nil, data_empty]
    simp only [countL_split_create hp hnl, countL_split_lparen0 hp hnl,
      countL_append_break hp hnl, countL_cons_break hp hnl]
    omega

theorem dedupAux_eq_keepFirst :
    ∀ (l seen : List String),
      dedupAux seen l = keepFirst (l.filter (fun y => decide (y ∉ seen))) := by
  intro l
  induction l with
  | nil => intro seen; simp [dedupAux, keepFirst]
  | cons x xs ih =>
    intro seen
    by_cases hx : x ∈ seen
    · rw [dedupAux, if_pos hx, List.filter_cons]
      have hd : decide (x ∉ seen) = false := by simp [hx]
      rw [hd]
      simp only [Bool.false_eq_true, if_false]
      exact ih seen
    · rw [dedupAux, if_neg hx, List.filter_cons]
      have hd : decide (x ∉ seen) = true := by simp [hx]
      rw [hd]
      simp only [if_true]
      rw [keepFirst, List.filter_filter]
      have hcongr : xs.filter (fun y => decide (y ≠ x) && decide (y ∉ seen)) =
          xs.filter (fun y => decide (y ∉ x :: seen)) := by
        apply List.filter_congr
        intro y _
        by_cases h1 : y = x
        · simp [h1]
        · by_cases h2 : y ∈ seen <;> simp [h1, h2]
      rw [hcongr, ih (x :: seen)]

theorem mem_keepFirst_of_mem : ∀ {l : List String} {x : String},
    x ∈ l → x ∈ keepFirst l := by
  intro l
  induction l using keepFirst.induct with
  | case1 => intro x hx; simp at hx
  | case2 y xs ih =>
    intro x hx
    rw [keepFirst]
    rcases List.mem_cons.mp hx with h1 | h2
    · rw [h1]; exact List.mem_cons_self _ _
    · by_cases hxy : x = y
      · rw [hxy]; exact List.mem_cons_self _ _
      · apply List.mem_cons_of_mem
        apply ih
        rw [List.mem_filter]
        exact ⟨h2, by simp [hxy]⟩

theorem mem_of_mem_keepFirst : ∀ {l : List String} {x : String},
    x ∈ keepFirst l → x ∈ l := by
  intro l
  induction l using keepFirst.induct with
  | case1 => intro x hx; rw [keepFirst] at hx; simp at hx
  | case2 y xs ih =>
    intro x hx
    rw [keepFirst] at hx
    rcases List.mem_cons.mp hx with h1 | h2
    · rw [h1]; exact List.mem_cons_self _ _
    · exact List.mem_cons_of_mem y (List.mem_filter.mp (ih h2)).1

theorem keepFirst_nodup : ∀ l : List String, (keepFirst l).Nodup := by
  intro l
  induction l using keepFirst.induct with
  | case1 => rw [keepFirst]; exact List.nodup_nil
  | case2 y xs ih =>
    rw [keepFirst]
    apply List.Nodup.cons
    · intro hy
      have := (List.mem_filter.mp (mem_of_mem_keepFirst hy)).2
      simp at this
    · exact ih

theorem splitAs_ne_nil (l : List Char) : splitAs l ≠ [] := by
  rw [splitAs.eq_def]
  split
  · simp
  · split <;> simp
  · simp

theorem splitJoin4_ne_nil (l : List Char) : splitJoin4 l ≠ [] := by
  rw [splitJoin4.eq_def]
  split
  · simp
  · split <;> simp
  · simp

theorem joinAs_cons (c : Char) (h : List Char) (t : List (List Char)) :
    joinAs ((c :: h) :: t) = c :: joinAs (h :: t) := by
  cases t with
  | nil => simp [joinAs]
  | cons y t2 => simp [joinAs]

theorem splitAs_join : ∀ l : List Char, joinAs (splitAs l) = l := by
  intro l
  induction l using splitAs.induct with
  | case1 rest ih =>
    rw [splitAs]
    obtain ⟨h0, t, hsplit⟩ : ∃ h0 t, splitAs rest = h0 :: t := by
      cases hs : splitAs rest with
      | nil => exact absurd hs (splitAs_ne_nil rest)
      | cons a b => exact ⟨a, b, rfl⟩
    rw [hsplit]
    rw [hsplit] at ih
    rw [joinAs]
    simp [ih]
  | case2 c rest hshape hsplit ih =>
    exact absurd hsplit (splitAs_ne_nil rest)
  | case3 c rest hshape h0 t hsplit ih =>
    rw [hsplit] at ih
    rw [splitAs.eq_def]
    split
    · rename_i rest2 heq
      injection heq with h1 h2
      exact (hshape rest2 h1 h2).elim
    · rename_i c2 rest2 hcon heq
      injection heq with h1 h2
      subst h1
      subst h2
      rw [hsplit]
      dsimp only
      rw [joinAs_cons, ih]
    · rename_i heq
      simp at heq
  | case4 =>
    rw [splitAs]
    rfl

theorem splitJoin4_no_delim :
    ∀ l : List Char, countL [':', ':', ':', ':'] l = 0 → splitJoin4 l = [l] := by
  intro l
  induction l using splitJoin4.induct with
  | case1 rest ih =>
    intro h
    exfalso
    have hpre : ([':', ':', ':', ':'] : List Char).isPrefixOf
        (':' :: ':' :: ':' :: ':' :: rest) = true := by
      simp [List.isPrefixOf]
    rw [countL, hpre] at h
    simp at h
  | case2 c rest hshape hsplit ih =>
    exact absurd hsplit (splitJoin4_ne_nil rest)
  | case3 c rest hshape h0 t hsplit ih =>
    intro h
    have hpre : ([':', ':', ':', ':'] : List Char).isPrefixOf (c :: rest) = false := by
      rw [Bool.eq_false_iff]
      intro hb
      obtain ⟨tt, htt⟩ :=  List.isPrefixOf_iff_prefix.mp hb
      rw [List.cons_append] at htt
      injection htt with h1 h2
      exact hshape tt h1.symm h2.symm
    rw [countL, hpre] at h
    simp only [Bool.false_eq_true, if_false, Nat.zero_add] at h
    have hres := ih h
    rw [splitJoin4.eq_def]
    split
    · rename_i rest2 heq
      injection heq with h1 h2
      exact (hshape rest2 h1 h2).elim
    · rename_i c2 rest2 hcon heq
      injection heq with h1 h2
      subst h1
      subst h2
      rw [hres]
    · rename_i heq
      simp at heq
  | case4 =>
    intro h
    rw [splitJoin4.eq_def]

/-- C1, counterexample: the claim predicts that in normal mode the
just-popped select (here `a`) is emitted as the first join operand and the
remainder (`b`) second; the code emits them in the opposite order, so at
this concrete input the composed text differs from the claimed form. -/
theorem C1_counterexample :
    sql_subquery [selExA, selExB] [("id", JoinType.Inner)] "  " 0 false ≠
      "SELECT\n  id,\n  val\nFROM\n" ++ select_sql selExA "  " 1 ++
      "\n  ALL INNER JOIN\n" ++ select_sql selExB "  " 1 ++ "\n  USING id" := by
  decide

/-- C1, amended: at every recursion level with at least one join remaining,
NORMAL mode emits the recursive remainder (a parenthesised recursive
subquery if at least two selects remain, otherwise the sole remaining
select) as the FIRST operand, then the `ALL <TYPE> JOIN` line, then the
just-popped select as the SECOND operand, then `USING <key>`; REVERSE mode
swaps the two operands (just-popped select first, remainder second). -/
theorem C1_amended (sel : Select) (rest : List Select) (join_col : String)
    (join_type : JoinType) (js : List (String × JoinType)) (indent : String)
    (lvl : Nat) (hlen : js.length + 1 = rest.length) :
    sql_subquery (sel :: rest) ((join_col, join_type) :: js) indent lvl false =
      (repeatN indent lvl ++ "SELECT" ++ "\n" ++ repeatN indent (lvl + 1)
        ++ joinSep ("," ++ "\n" ++ repeatN indent (lvl + 1))
            (aggregateCols (sel :: rest))
        ++ "\n" ++ repeatN indent lvl ++ "FROM" ++ "\n")
      ++ (if 2 ≤ rest.length then
            repeatN indent (lvl + 1) ++ "(" ++ "\n"
              ++ sql_subquery rest js indent (lvl + 2) false
              ++ "\n" ++ repeatN indent (lvl + 1) ++ ")"
          else select_sql (rest.headD default) indent (lvl + 1))
      ++ ("\n" ++ repeatN indent (lvl + 1) ++ "ALL" ++ " " ++ join_type.display
        ++ " " ++ "JOIN" ++ "\n")
      ++ select_sql sel indent (lvl + 1)
      ++ ("\n" ++ repeatN indent (lvl + 1) ++ "USING" ++ " " ++ join_col) ∧
    sql_subquery (sel :: rest) ((join_col, join_type) :: js) indent lvl true =
      (repeatN indent lvl ++ "SELECT" ++ "\n" ++ repeatN indent (lvl + 1)
        ++ joinSep ("," ++ "\n" ++ repeatN indent (lvl + 1))
            (aggregateCols (sel :: rest))
        ++ "\n" ++ repeatN indent lvl ++ "FROM" ++ "\n")
      ++ select_sql sel indent (lvl + 1)
      ++ ("\n" ++ repeatN indent (lvl + 1) ++ "ALL" ++ " " ++ join_type.display
        ++ " " ++ "JOIN" ++ "\n")
      ++ (if 2 ≤ rest.length then
            repeatN indent (lvl + 1) ++ "(" ++ "\n"
              ++ sql_subquery rest js indent (lvl + 2) true
              ++ "\n" ++ repeatN indent (lvl + 1) ++ ")"
          else select_sql (rest.headD default) indent (lvl + 1))
      ++ ("\n" ++ repeatN indent (lvl + 1) ++ "USING" ++ " " ++ join_col) := by
  cases rest with
  | nil => simp at hlen
  | cons r1 rs =>
    cases rs with
    | nil =>
      constructor
      · simp [sql_subquery]
      · simp [sql_subquery]
    | cons r2 rs2 =>
      constructor
      · have h2 : 2 ≤ (r1 :: r2 :: rs2).length := by simp
        simp only [sql_subquery, Bool.false_eq_true, if_false, if_pos h2]
      · have h2 : 2 ≤ (r1 :: r2 :: rs2).length := by simp
        simp only [sql_subquery, if_true, if_pos h2]

/-- C1, witness: the amended description evaluated on the end-to-end
example statement in normal mode. -/
theorem C1_amended_witness :
    sql_subquery [selExA, selExB] [("id", JoinType.Inner)] "  " 0 false =
      "SELECT\n  id,\n  val\nFROM\n" ++ select_sql selExB "  " 1 ++
      "\n  ALL INNER JOIN\n" ++ select_sql selExA "  " 1 ++ "\n  USING id" := by
  have h := (C1_amended selExA [selExB] "id" JoinType.Inner [] "  " 0
    (by decide)).1
  rw [h]
  decide

/-- C2, counterexample: the end-to-end example statement composed in normal
mode does not produce the output text claimed by the spec (the spec's
operand order is reversed and renders `a` bare although it has a
projection list). -/
theorem C2_counterexample :
    Statement.clickhouse_sql stmtEx "  " false ≠
      "SELECT\n  id,\n  val\nFROM\n  a\n  ALL INNER JOIN\n  (\n    SELECT\n      id,\n      v as val\n    FROM b\n  )\n  USING id" := by
  decide

/-- C2, amended: the end-to-end example statement composed in normal mode
produces exactly this text: the subquery for `b` is the first operand and
the subquery for `a` the second. -/
theorem C2_amended :
    Statement.clickhouse_sql stmtEx "  " false =
      "SELECT\n  id,\n  val\nFROM\n  (\n    SELECT\n      id,\n      v as val\n    FROM b\n  )\n  ALL INNER JOIN\n  (\n    SELECT\n      id\n    FROM a\n  )\n  USING id" := by
  decide

/-- C3: a statement whose join key "k" names no projection of either
adjacent select still validates successfully, because the membership check
of the full contract is commented out in the source; the claim (and the
spec's stated intent) says validation must fail with an unjoinable-key
error here. -/
theorem C3_validate_permissive :
    Statement.validate ⟨none, [("k", JoinType.Inner)],
      [⟨"a", [⟨"x", none⟩], none, none⟩, ⟨"b", [⟨"y", none⟩], none, none⟩]⟩ =
    some (Except.ok ()) := by
  decide

/-- C4: for every statement satisfying the count invariant whose
user-supplied fragments (table names, rendered projections, join keys,
group-by and where clauses, output table) do not contain the tokens
`JOIN` or `USING`, the output composed with the default indent in either
nesting mode contains exactly `joins.length` occurrences of `JOIN` and of
`USING`. -/
theorem C4_join_using_token_counts (stmt : Statement) (rev : Bool)
    (hlen : stmt.joins.length + 1 = stmt.selects.length)
    (hJ : statementTokFreeB "JOIN" stmt = true)
    (hU : statementTokFreeB "USING" stmt = true) :
    countTok "JOIN" (stmt.clickhouse_sql DEFAULT_INDENT rev) =
      stmt.joins.length ∧
    countTok "USING" (stmt.clickhouse_sql DEFAULT_INDENT rev) =
      stmt.joins.length := by
  obtain ⟨hselJ, hjoinJ, hctJ⟩ := statementTokFreeB_elim hJ
  obtain ⟨hselU, hjoinU, hctU⟩ := statementTokFreeB_elim hU
  constructor
  · have h := @countL_clickhouse_sql ("JOIN" : String).data
      (by decide) (by decide) (by decide) (by decide) (by decide) (by decide)
      (by decide) (by decide) (by decide) (by decide) (by decide) (by decide)
      (by decide) (by decide) (by decide) (by decide) (by decide) (by decide)
      (by decide) stmt rev hlen hselJ hjoinJ hctJ
    rw [countTok, h]
    have hcoef : countL ("JOIN" : String).data ("JOIN" : String).data +
        countL ("JOIN" : String).data ("USING" : String).data = 1 := by decide
    rw [hcoef, Nat.one_mul]
  · have h := @countL_clickhouse_sql ("USING" : String).data
      (by decide) (by decide) (by decide) (by decide) (by decide) (by decide)
      (by decide) (by decide) (by decide) (by decide) (by decide) (by decide)
      (by decide) (by decide) (by decide) (by decide) (by decide) (by decide)
      (by decide) stmt rev hlen hselU hjoinU hctU
    rw [countTok, h]
    have hcoef : countL ("USING" : String).data ("JOIN" : String).data +
        countL ("USING" : String).data ("USING" : String).data = 1 := by decide
    rw [hcoef, Nat.one_mul]

/-- C4, witness: the end-to-end example statement has one join and its
normal-mode output contains exactly one `JOIN` and one `USING`. -/
theorem C4_witness :
    countTok "JOIN" (Statement.clickhouse_sql stmtEx DEFAULT_INDENT false) = 1 ∧
    countTok "USING" (Statement.clickhouse_sql stmtEx DEFAULT_INDENT false) = 1 := by
  have h := C4_join_using_token_counts stmtEx false (by decide) (by decide)
    (by decide)
  exact h

/-- C5: the aggregate column list of a recursion level equals the
spec-side stable de-duplication (map every projection of every remaining
select, in order, to its rendered name; keep only the first occurrence of
each name, preserving insertion order), and every projected name appears
exactly once in it. -/
theorem C5_aggregate_cols_spec :
    (∀ selects : List Select,
      aggregateCols selects =
        keepFirst (selects.flatMap
          (fun s => s.projections.map ProjectionCol.aliased))) ∧
    (∀ (selects : List Select) (name : String),
      name ∈ selects.flatMap (fun s => s.projections.map ProjectionCol.aliased) →
      List.count name (aggregateCols selects) = 1) := by
  have hmain : ∀ selects : List Select,
      aggregateCols selects =
        keepFirst (selects.flatMap
          (fun s => s.projections.map ProjectionCol.aliased)) := by
    intro selects
    rw [aggregateCols, dedupAux_eq_keepFirst]
    have hf : (selects.flatMap Select.aliased_projections).filter
        (fun y => decide (y ∉ ([] : List String))) =
        selects.flatMap (fun s => s.projections.map ProjectionCol.aliased) := by
      rw [List.filter_eq_self.mpr]
      · rfl
      · intro a _
        simp
    rw [hf]
  refine ⟨hmain, ?_⟩
  intro selects name hmem
  rw [hmain]
  exact List.count_eq_one_of_mem (keepFirst_nodup _) (mem_keepFirst_of_mem hmem)

/-- C5, witness: for the example selects, `id` is projected by both
remaining selects yet appears exactly once, first, in the aggregate list. -/
theorem C5_witness :
    List.count "id" (aggregateCols [selExA, selExB]) = 1 ∧
    aggregateCols [selExA, selExB] = ["id", "val"] := by
  refine ⟨C5_aggregate_cols_spec.2 [selExA, selExB] "id" (by decide), ?_⟩
  decide

/-- C6: for every statement and every indent, the outputs composed in
normal and in reverse mode contain every newline-free token (in
particular every table name, join-type keyword and USING key) the same
number of times; only the nesting positions differ. -/
theorem C6_mode_token_invariance (stmt : Statement) (indent : String)
    (p : String) (hp : p.data ≠ []) (hnl : '\n' ∉ p.data) :
    countTok p (stmt.clickhouse_sql indent false) =
    countTok p (stmt.clickhouse_sql indent true) := by
  rw [countTok, countTok]
  exact countL_clickhouse_sql_mode hp hnl stmt indent

/-- C6, witness: the example statement's normal and reverse outputs agree
on the count of the join-type token `INNER` (and of a table name `b`). -/
theorem C6_witness :
    countTok "INNER" (Statement.clickhouse_sql stmtEx "  " false) =
      countTok "INNER" (Statement.clickhouse_sql stmtEx "  " true) ∧
    countTok "b" (Statement.clickhouse_sql stmtEx "  " false) =
      countTok "b" (Statement.clickhouse_sql stmtEx "  " true) :=
  ⟨C6_mode_token_invariance stmtEx "  " "INNER" (by decide) (by decide),
   C6_mode_token_invariance stmtEx "  " "b" (by decide) (by decide)⟩

/-- C7, counterexample: the claim says the segment after `::::` is matched
case-insensitively, so "Inner" should parse to the INNER join type; the
code matches only the exact all-lowercase and all-uppercase spellings and
fails on "Inner". -/
theorem C7_counterexample :
    parseJoinEntry JoinType.default "k::::Inner" =
      Except.error "Could not parse string to JoinType" := by
  decide

/-- C7, amended: the type segment is matched case-SENSITIVELY against the
eight exact spellings right/RIGHT/left/LEFT/inner/INNER/outer/OUTER; any
other segment makes the entry fail with a parse error; when the `::::`
delimiter is absent the configured default type is used. -/
theorem C7_amended :
    (∀ s : String, JoinType.from_str s = Except.ok JoinType.Right ↔
      (s = "right" ∨ s = "RIGHT")) ∧
    (∀ s : String, JoinType.from_str s = Except.ok JoinType.Left ↔
      (s = "left" ∨ s = "LEFT")) ∧
    (∀ s : String, JoinType.from_str s = Except.ok JoinType.Inner ↔
      (s = "inner" ∨ s = "INNER")) ∧
    (∀ s : String, JoinType.from_str s = Except.ok JoinType.Outer ↔
      (s = "outer" ∨ s = "OUTER")) ∧
    (∀ s : String, s ∉ (["right", "RIGHT", "left", "LEFT", "inner", "INNER",
        "outer", "OUTER"] : List String) →
      JoinType.from_str s = Except.error "Could not parse string to JoinType") ∧
    (∀ (d : JoinType) (s : String) (col ty : List Char)
        (rest : List (List Char)),
      splitJoin4 s.data = col :: ty :: rest →
      JoinType.from_str ⟨ty⟩ = Except.error "Could not parse string to JoinType" →
      parseJoinEntry d s = Except.error "Could not parse string to JoinType") ∧
    (∀ (d : JoinType) (k : String), countTok "::::" k = 0 →
      parseJoinEntry d k = Except.ok (k, d)) := by
  refine ⟨?_, ?_, ?_, ?_, ?_, ?_, ?_⟩
  · intro s
    constructor
    · intro h
      rw [JoinType.from_str] at h
      split_ifs at h with h1 h2 h3 h4
      · exact h1
      all_goals simp at h
    · intro h
      rcases h with rfl | rfl <;> decide
  · intro s
    constructor
    · intro h
      rw [JoinType.from_str] at h
      split_ifs at h with h1 h2 h3 h4
      · simp at h
      · exact h2
      all_goals simp at h
    · intro h
      rcases h with rfl | rfl <;> decide
  · intro s
    constructor
    · intro h
      rw [JoinType.from_str] at h
      split_ifs at h with h1 h2 h3 h4
      · simp at h
      · simp at h
      · exact h3
      all_goals simp at h
    · intro h
      rcases h with rfl | rfl <;> decide
  · intro s
    constructor
    · intro h
      rw [JoinType.from_str] at h
      split_ifs at h with h1 h2 h3 h4
      · simp at h
      · simp at h
      · simp at h
      · exact h4
    · intro h
      rcases h with rfl | rfl <;> decide
  · intro s hs
    rw [JoinType.from_str]
    split_ifs with h1 h2 h3 h4
    · rcases h1 with rfl | rfl <;> simp at hs
    · rcases h2 with rfl | rfl <;> simp at hs
    · rcases h3 with rfl | rfl <;> simp at hs
    · rcases h4 with rfl | rfl <;> simp at hs
    · rfl
  · intro d s col ty rest hsplit herr
    rw [parseJoinEntry, hsplit]
    dsimp only
    rw [herr]
  · intro d k hk
    have hk2 : countL [':', ':', ':', ':'] k.data = 0 := hk
    rw [parseJoinEntry, splitJoin4_no_delim k.data hk2]

/-- C7, witness: an unknown segment fails, and a delimiter-free entry
takes the configured default. -/
theorem C7_witness :
    JoinType.from_str "xyz" = Except.error "Could not parse string to JoinType" ∧
    parseJoinEntry JoinType.Left "id" = Except.ok ("id", JoinType.Left) :=
  ⟨C7_amended.2.2.2.2.1 "xyz" (by decide),
   C7_amended.2.2.2.2.2.2 JoinType.Left "id" (by decide)⟩

/-- C8: parsing "a as b" yields column a with alias b and re-renders to
"a as b"; parsing "a" yields column a without alias and re-renders to "a";
for every input whose split on " as " has at most two segments, none with
surrounding whitespace, rendering after parsing returns the input
unchanged; an input splitting into three or more segments fails to
parse. -/
theorem C8_projection_roundtrip :
    (ProjectionCol.from_str "a as b" = Except.ok ⟨"a", some "b"⟩ ∧
      ProjectionCol.sql_string ⟨"a", some "b"⟩ = "a as b") ∧
    (ProjectionCol.from_str "a" = Except.ok ⟨"a", none⟩ ∧
      ProjectionCol.sql_string ⟨"a", none⟩ = "a") ∧
    (∀ s : String, (splitAs s.data).length ≤ 2 →
      (∀ part ∈ splitAs s.data, rustTrim part = part) →
      ∃ pc : ProjectionCol, ProjectionCol.from_str s = Except.ok pc ∧
        pc.sql_string = s) ∧
    (∀ s : String, 3 ≤ (splitAs s.data).length →
      ProjectionCol.from_str s =
        Except.error ("could not parse projection col: " ++ s)) := by
  refine ⟨⟨by decide, by decide⟩, ⟨by decide, by decide⟩, ?_, ?_⟩
  · intro s hlen htrim
    have hj := splitAs_join s.data
    cases hs : splitAs s.data with
    | nil => exact absurd hs (splitAs_ne_nil s.data)
    | cons x t =>
      rw [hs] at hj
      cases t with
      | nil =>
        refine ⟨⟨⟨x⟩, none⟩, ?_, ?_⟩
        · rw [ProjectionCol.from_str, hs]
        · rw [joinAs] at hj
          rw [ProjectionCol.sql_string]
          dsimp only
          rw [hj]
      | cons y t2 =>
        cases t2 with
        | nil =>
          have hx : rustTrim x = x := htrim x (by rw [hs]; simp)
          have hy : rustTrim y = y := htrim y (by rw [hs]; simp)
          refine ⟨⟨⟨rustTrim x⟩, some ⟨rustTrim y⟩⟩, ?_, ?_⟩
          · rw [ProjectionCol.from_str, hs]
          · rw [hx, hy, ProjectionCol.sql_string]
            dsimp only
            apply String.ext
            simp only [String.data_append]
            rw [← hj]
            simp [joinAs]
        | cons z t3 =>
          rw [hs] at hlen
          simp at hlen
  · intro s h3
    cases hs : splitAs s.data with
    | nil => exact absurd hs (splitAs_ne_nil s.data)
    | cons x t =>
      cases t with
      | nil =>
        rw [hs] at h3
        simp at h3
      | cons y t2 =>
        cases t2 with
        | nil =>
          rw [hs] at h3
          simp at h3
        | cons z t3 =>
          rw [ProjectionCol.from_str, hs]

/-- C8, witness: the general round trip applied at "x as y", and the
failure case applied at "a as b as c". -/
theorem C8_witness :
    (∃ pc : ProjectionCol, ProjectionCol.from_str "x as y" = Except.ok pc ∧
      pc.sql_string = "x as y") ∧
    ProjectionCol.from_str "a as b as c" =
      Except.error ("could not parse projection col: " ++ "a as b as c") :=
  ⟨C8_projection_roundtrip.2.2.1 "x as y" (by decide) (by decide),
   C8_projection_roundtrip.2.2.2 "a as b as c" (by decide)⟩

/-- C9: validate computes `selects.len() - 1` as an unchecked unsigned
subtraction; with at least one select it cannot underflow and validate
returns a result (Ok on a matching count, the count-mismatch error
otherwise), while on an empty select list the subtraction underflows (a
panic, modelled as `none`, not a returned validation error). -/
theorem C9_validate_subtraction (stmt : Statement) :
    (stmt.selects ≠ [] →
      (stmt.joins.length = stmt.selects.length - 1 →
        stmt.validate = some (Except.ok ())) ∧
      (stmt.joins.length ≠ stmt.selects.length - 1 →
        stmt.validate =
          some (Except.error "joins len must be one less than selects"))) ∧
    (stmt.selects = [] → stmt.validate = none) := by
  constructor
  · intro hne
    have hlen : 1 ≤ stmt.selects.length := by
      cases hsel : stmt.selects with
      | nil => exact absurd hsel hne
      | cons a b => simp
    constructor <;> intro hj
    · rw [Statement.validate, checkedSub, if_pos hlen]
      dsimp only
      rw [if_neg (fun hcond => hcond hj)]
    · rw [Statement.validate, checkedSub, if_pos hlen]
      dsimp only
      rw [if_pos hj]
  · intro hsel
    rw [Statement.validate, checkedSub, hsel]
    simp

/-- C9, witness: a one-select statement validates to Ok; an empty-select
statement hits the underflow. -/
theorem C9_witness :
    Statement.validate ⟨none, [], [⟨"t", [], none, none⟩]⟩ =
      some (Except.ok ()) ∧
    Statement.validate ⟨none, [], ([] : List Select)⟩ = none :=
  ⟨((C9_validate_subtraction _).1 (by decide)).1 (by decide),
   (C9_validate_subtraction _).2 rfl⟩

/-- C10: when the input document omits the global `join_type` field the
global default is INNER, and a join entry without a `::::<type>` suffix in
such a document is assigned the INNER type. -/
theorem C10_default_inner :
    resolveGlobalJoinType none = JoinType.Inner ∧
    ∀ k : String, countTok "::::" k = 0 →
      parseJoinEntry (resolveGlobalJoinType none) k =
        Except.ok (k, JoinType.Inner) := by
  constructor
  · rfl
  · intro k hk
    have hk2 : countL [':', ':', ':', ':'] k.data = 0 := hk
    rw [parseJoinEntry, splitJoin4_no_delim k.data hk2]
    rfl

/-- C10, witness: the bare join entry "id" in a document without a global
join type gets the INNER type. -/
theorem C10_witness :
    parseJoinEntry (resolveGlobalJoinType none) "id" =
      Except.ok ("id", JoinType.Inner) :=
  C10_default_inner.2 "id" (by decide)

end MoarSql
